import Mathlib

/-!
Shallow embedding of the EpubReader web application (readerweb sources) and
verification of its specified properties.

The embedded code comes from:
* `src/readerweb/types.ts` — the data model (`Highlight`, `Book`, `ReaderSettings`);
* `src/readerweb/services/db.ts` — the persistence gateway over a keyed book store;
* `src/readerweb/components/Reader.tsx` — the reading session: theme application,
  highlight reconciliation after settings changes, selection-to-highlight creation,
  mark-click deletion with a suppression window, relocation progress updates,
  and session initialization ordering.

The rendering engine (epubjs) is an external collaborator: its overlay store is
keyed by the canonical range identifier string (the engine hashes
`encodeURI(cfiRange + type)`, and the overlay type is always the same constant
in this component, so the key is the cfiRange itself).  Fallible engine calls
are modelled with explicit failure oracles.
-/

namespace ReaderWeb

/-- Theme enum from `types.ts`: `'light' | 'sepia' | 'night'`. -/
inductive Theme where
  | light
  | sepia
  | night
deriving DecidableEq, Repr

/-- Font family enum from `types.ts`: `'serif' | 'sans'`. -/
inductive FontFamily where
  | serif
  | sans
deriving DecidableEq, Repr

/-- `ReaderSettings` from `types.ts`. `fontSize` is a JS number used only at
integral values (percentage scalar); embedded as `Int`. -/
structure ReaderSettings where
  theme : Theme
  fontSize : Int
  fontFamily : FontFamily
deriving DecidableEq, Repr

/-- `Highlight` from `types.ts`: `cfiRange`, hex `color`, optional captured
`text`, and `created` timestamp (`Date.now()`). -/
structure Highlight where
  cfiRange : String
  color : String
  text : Option String
  created : Nat
deriving DecidableEq, Repr

/-- `Book` from `types.ts`.  The binary EPUB content (`data : ArrayBuffer`) is
embedded as a byte list; `coverUrl`, `totalLocations` and `highlights` are
optional fields, exactly as in the source. -/
structure Book where
  id : String
  title : String
  author : String
  coverUrl : Option String
  data : List Nat
  addedAt : Nat
  lastLocationCfi : String
  progress : Int
  totalLocations : Option Nat
  highlights : Option (List Highlight)
deriving DecidableEq, Repr

/-!
## Persistence gateway (`services/db.ts`)

The IndexedDB object store `books` is keyed by `id` (`keyPath: 'id'`).  It is
embedded as a list of books in which `put` replaces the record with the same
key when present and inserts otherwise, and `get` finds the record with the
given key.
-/

/-- The `books` object store. -/
abbrev Store := List Book

/-- `db.get('books', id)`: the record with the given key, if any. -/
def findBook (st : Store) (i : String) : Option Book :=
  st.find? (fun b => b.id == i)

/-- `db.put('books', book)`: replace the record with the same key if present,
otherwise insert. -/
def putBook (st : Store) (b : Book) : Store :=
  if st.any (fun x => x.id == b.id) then
    st.map (fun x => if x.id == b.id then b else x)
  else
    st ++ [b]

/-- `updateBookProgress` from `db.ts`: if the book exists, set
`lastLocationCfi` and `progress` and put it back; otherwise do nothing. -/
def updateBookProgress (st : Store) (i cfi : String) (progress : Int) : Store :=
  match findBook st i with
  | none => st
  | some book => putBook st { book with lastLocationCfi := cfi, progress := progress }

/-- `addBookHighlight` from `db.ts`: if the book exists, append the highlight
to `book.highlights || []` and put the book back; otherwise do nothing. -/
def addBookHighlight (st : Store) (i : String) (hl : Highlight) : Store :=
  match findBook st i with
  | none => st
  | some book => putBook st { book with highlights := some (book.highlights.getD [] ++ [hl]) }

/-- `removeBookHighlight` from `db.ts`: if the book exists and has a
`highlights` field, keep only the entries whose `cfiRange` differs from the
given one and put the book back; otherwise do nothing. -/
def removeBookHighlight (st : Store) (i cfiRange : String) : Store :=
  match findBook st i with
  | none => st
  | some book =>
    match book.highlights with
    | none => st
    | some hs => putBook st { book with highlights := some (hs.filter (fun h => h.cfiRange != cfiRange)) }

/-! ### Store lemmas -/

theorem findBook_putBook_self (st : Store) (b : Book) :
    findBook (putBook st b) b.id = some b := by
  unfold putBook findBook
  by_cases h : st.any (fun x => x.id == b.id)
  · rw [if_pos h]
    induction st with
    | nil => simp at h
    | cons x xs ih =>
      by_cases hx : x.id == b.id
      · simp [List.find?, hx]
      · have h' : xs.any (fun x => x.id == b.id) := by
          simpa [List.any_cons, hx] using h
        simp only [List.map_cons, if_neg hx]
        rw [List.find?_cons_of_neg _ (by simpa using hx)]
        exact ih h'
  · rw [if_neg h]
    have hnone : st.find? (fun y => y.id == b.id) = none := by
      rw [List.find?_eq_none]
      intro x hx
      simp only [List.any_eq_true, not_exists, not_and] at h
      simpa using h x hx
    rw [List.find?_append, hnone]
    simp [List.find?]

theorem putBook_eq_self (st : Store) (b : Book) (i : String)
    (hnd : (st.map Book.id).Nodup) (hb : findBook st i = some b) :
    putBook st b = st := by
  have hmem : b ∈ st := List.mem_of_find?_eq_some hb
  have hany : st.any (fun x => x.id == b.id) := by
    rw [List.any_eq_true]
    exact ⟨b, hmem, by simp⟩
  unfold putBook
  rw [if_pos hany]
  have : ∀ x ∈ st, (if x.id == b.id then b else x) = x := by
    intro x hx
    by_cases hid : x.id == b.id
    · have : x = b := List.inj_on_of_nodup_map hnd hx hmem (by simpa using hid)
      simp [hid, this]
    · simp [hid]
  rw [List.map_congr_left this]
  simp

/-!
## Claim C10 — missing-record no-ops at the persistence interface
-/

/-- C10: for every book id absent from the persistent store, each of
`updateBookProgress`, `addBookHighlight` and `removeBookHighlight` leaves the
store completely unchanged (the functions are total, so they complete without
error). -/
theorem claim_C10 (store : Store) (bookId cfi cfi2 : String) (p : Int) (hl : Highlight)
    (habs : findBook store bookId = none) :
    updateBookProgress store bookId cfi p = store ∧
    addBookHighlight store bookId hl = store ∧
    removeBookHighlight store bookId cfi2 = store := by
  refine ⟨?_, ?_, ?_⟩ <;> simp [updateBookProgress, addBookHighlight, removeBookHighlight, habs]

/-- C10 witness: the operations at a concrete absent id on a concrete store. -/
theorem claim_C10_witness :
    updateBookProgress [] "missing" "cfi" 7 = [] ∧
    addBookHighlight [] "missing" ⟨"r", "#ffff00", none, 0⟩ = [] ∧
    removeBookHighlight [] "missing" "r" = [] :=
  claim_C10 [] "missing" "cfi" "r" 7 ⟨"r", "#ffff00", none, 0⟩ (by decide)

/-!
## Font-size controls (`Reader.tsx` lines 488–489) and claim C9
-/

/-- The `A-` button: `fontSize := Math.max(50, settings.fontSize - 10)`. -/
def decFontSize (s : ReaderSettings) : ReaderSettings :=
  { s with fontSize := max 50 (s.fontSize - 10) }

/-- The `A+` button: `fontSize := Math.min(200, settings.fontSize + 10)`. -/
def incFontSize (s : ReaderSettings) : ReaderSettings :=
  { s with fontSize := min 200 (s.fontSize + 10) }

/-- One of the two font-size button operations. -/
inductive FontOp where
  | dec
  | inc
deriving DecidableEq, Repr

/-- Apply a font-size button operation to the settings. -/
def applyFontOp : FontOp → ReaderSettings → ReaderSettings
  | FontOp.dec, s => decFontSize s
  | FontOp.inc, s => incFontSize s

theorem applyFontOp_mem_range (op : FontOp) (s : ReaderSettings)
    (h1 : 50 ≤ s.fontSize) (h2 : s.fontSize ≤ 200) :
    50 ≤ (applyFontOp op s).fontSize ∧ (applyFontOp op s).fontSize ≤ 200 := by
  cases op <;> simp only [applyFontOp, decFontSize, incFontSize] <;> constructor <;> omega

theorem foldl_fontOp_mem_range (ops : List FontOp) (s : ReaderSettings)
    (h1 : 50 ≤ s.fontSize) (h2 : s.fontSize ≤ 200) :
    50 ≤ (ops.foldl (fun acc op => applyFontOp op acc) s).fontSize ∧
    (ops.foldl (fun acc op => applyFontOp op acc) s).fontSize ≤ 200 := by
  induction ops generalizing s with
  | nil => exact ⟨h1, h2⟩
  | cons op rest ih =>
    have h := applyFontOp_mem_range op s h1 h2
    exact ih (applyFontOp op s) h.1 h.2

/-- C9: the decrease operation computes `max 50 (fontSize - 10)`, the increase
operation computes `min 200 (fontSize + 10)`, and every sequence of the two
operations keeps `fontSize` within `[50, 200]` from any in-range start. -/
theorem claim_C9 (s : ReaderSettings) (ops : List FontOp)
    (h1 : 50 ≤ s.fontSize) (h2 : s.fontSize ≤ 200) :
    (decFontSize s).fontSize = max 50 (s.fontSize - 10) ∧
    (incFontSize s).fontSize = min 200 (s.fontSize + 10) ∧
    50 ≤ (ops.foldl (fun acc op => applyFontOp op acc) s).fontSize ∧
    (ops.foldl (fun acc op => applyFontOp op acc) s).fontSize ≤ 200 := by
  have h := foldl_fontOp_mem_range ops s h1 h2
  exact ⟨rfl, rfl, h.1, h.2⟩

/-- C9 witness: a concrete settings value and operation sequence. -/
theorem claim_C9_witness :
    (decFontSize ⟨Theme.light, 100, FontFamily.serif⟩).fontSize = max 50 (100 - 10) ∧
    (incFontSize ⟨Theme.light, 100, FontFamily.serif⟩).fontSize = min 200 (100 + 10) ∧
    50 ≤ (([FontOp.dec, FontOp.dec, FontOp.inc].foldl (fun acc op => applyFontOp op acc)
      ⟨Theme.light, 100, FontFamily.serif⟩).fontSize) ∧
    (([FontOp.dec, FontOp.dec, FontOp.inc].foldl (fun acc op => applyFontOp op acc)
      ⟨Theme.light, 100, FontFamily.serif⟩).fontSize) ≤ 200 :=
  claim_C9 ⟨Theme.light, 100, FontFamily.serif⟩ [FontOp.dec, FontOp.dec, FontOp.inc]
    (by decide) (by decide)

/-!
## Rendering-engine overlay store and highlight reconciliation
(`Reader.tsx` lines 239–269)

The engine keeps visual overlays in a hash keyed by the canonical range
identifier (the overlay type is the same constant at every call site in this
component).  Its key set is embedded as a duplicate-free list in insertion
order: adding an existing key overwrites in place (key set unchanged), adding
a new key appends it, and removing a key deletes it.  Whether an individual
engine call throws is modelled by a failure oracle on the key.
-/

/-- Engine overlay add, key-set effect: a present key is overwritten in place,
an absent key is appended. -/
def addKey (ovs : List String) (k : String) : List String :=
  if k ∈ ovs then ovs else ovs ++ [k]

/-- Engine overlay remove, key-set effect: the key is deleted. -/
def removeKey (ovs : List String) (k : String) : List String :=
  ovs.filter (fun x => x != k)

/-- Phase (a) of the reconciliation body (`Reader.tsx` 249–255): for each
highlight in the collection, remove its overlay inside a `try`/`catch` that
swallows the error, so the loop continues regardless; a throwing removal
leaves the overlay store as it was. -/
def clearOverlays (removeFails : String → Bool) (hs : List Highlight) (ovs : List String) : List String :=
  hs.foldl (fun acc h => if removeFails h.cfiRange then acc else removeKey acc h.cfiRange) ovs

/-- Phase (b) of the reconciliation body (`Reader.tsx` 258–264): re-add an
overlay for every highlight in the collection.  This `forEach` has no
`try`/`catch`, so a throwing add aborts the remaining iterations. -/
def addOverlays (addFails : String → Bool) : List Highlight → List String → List String
  | [], ovs => ovs
  | h :: rest, ovs =>
    if addFails h.cfiRange then ovs
    else addOverlays addFails rest (addKey ovs h.cfiRange)

/-- The whole clear-then-reapply reconciliation body (`Reader.tsx` 245–265). -/
def reconcileVisual (removeFails addFails : String → Bool) (hs : List Highlight)
    (ovs : List String) : List String :=
  addOverlays addFails hs (clearOverlays removeFails hs ovs)

/-- The oracle for engine calls that do not throw. -/
def noFail : String → Bool := fun _ => false

/-! ### Overlay lemmas -/

theorem mem_addKey {ovs : List String} {k k' : String} :
    k ∈ addKey ovs k' ↔ k ∈ ovs ∨ k = k' := by
  unfold addKey
  by_cases h : k' ∈ ovs
  · rw [if_pos h]
    constructor
    · exact Or.inl
    · rintro (hk | rfl)
      · exact hk
      · exact h
  · rw [if_neg h]
    simp [List.mem_append]

theorem mem_removeKey {ovs : List String} {k k' : String} :
    k ∈ removeKey ovs k' ↔ k ∈ ovs ∧ k ≠ k' := by
  simp [removeKey, List.mem_filter]

theorem clearOverlays_cons (g : String → Bool) (h : Highlight) (t : List Highlight)
    (ovs : List String) :
    clearOverlays g (h :: t) ovs
      = clearOverlays g t (if g h.cfiRange then ovs else removeKey ovs h.cfiRange) := rfl

theorem mem_of_mem_clearOverlays (g : String → Bool) (hs : List Highlight)
    (ovs : List String) {k : String} (hk : k ∈ clearOverlays g hs ovs) : k ∈ ovs := by
  induction hs generalizing ovs with
  | nil => exact hk
  | cons a t ih =>
    rw [clearOverlays_cons] at hk
    have := ih _ hk
    by_cases hg : g a.cfiRange
    · rwa [if_pos hg] at this
    · rw [if_neg hg] at this
      exact (mem_removeKey.mp this).1

theorem not_mem_clearOverlays (g : String → Bool) (hs : List Highlight) (ovs : List String)
    {h : Highlight} (hmem : h ∈ hs) (hok : g h.cfiRange = false) :
    h.cfiRange ∉ clearOverlays g hs ovs := by
  induction hs generalizing ovs with
  | nil => simp at hmem
  | cons a t ih =>
    rw [clearOverlays_cons]
    rcases List.mem_cons.mp hmem with rfl | ht
    · rw [hok, if_neg (by simp)]
      intro hk
      have := mem_of_mem_clearOverlays _ _ _ hk
      exact (mem_removeKey.mp this).2 rfl
    · exact ih _ ht

theorem mem_clearOverlays_noFail {hs : List Highlight} {ovs : List String} {k : String}
    (hk : k ∈ clearOverlays noFail hs ovs) : k ∈ ovs ∧ ∀ h ∈ hs, k ≠ h.cfiRange := by
  induction hs generalizing ovs with
  | nil => exact ⟨hk, by simp⟩
  | cons a t ih =>
    rw [clearOverlays_cons, if_neg (by simp [noFail])] at hk
    obtain ⟨hk', hrest⟩ := ih hk
    obtain ⟨hov, hne⟩ := mem_removeKey.mp hk'
    refine ⟨hov, ?_⟩
    intro h hmem
    rcases List.mem_cons.mp hmem with rfl | ht
    · exact hne
    · exact hrest h ht

theorem clearOverlays_eq_nil {hs : List Highlight} {ovs : List String}
    (hsub : ∀ k ∈ ovs, k ∈ hs.map Highlight.cfiRange) :
    clearOverlays noFail hs ovs = [] := by
  rw [List.eq_nil_iff_forall_not_mem]
  intro k hk
  obtain ⟨hov, hne⟩ := mem_clearOverlays_noFail hk
  obtain ⟨h, hmem, rfl⟩ := List.mem_map.mp (hsub k hov)
  exact hne h hmem rfl

theorem mem_addOverlays_noFail {hs : List Highlight} {ovs : List String} {k : String} :
    k ∈ addOverlays noFail hs ovs ↔ k ∈ ovs ∨ ∃ h ∈ hs, k = h.cfiRange := by
  induction hs generalizing ovs with
  | nil => simp [addOverlays]
  | cons a t ih =>
    rw [addOverlays, if_neg (by simp [noFail]), ih]
    constructor
    · rintro (hk | ⟨h, hmem, rfl⟩)
      · rcases mem_addKey.mp hk with hk' | rfl
        · exact Or.inl hk'
        · exact Or.inr ⟨a, by simp⟩
      · exact Or.inr ⟨h, by simp [hmem]⟩
    · rintro (hk | ⟨h, hmem, rfl⟩)
      · exact Or.inl (mem_addKey.mpr (Or.inl hk))
      · rcases List.mem_cons.mp hmem with rfl | ht
        · exact Or.inl (mem_addKey.mpr (Or.inr rfl))
        · exact Or.inr ⟨h, ht, rfl⟩

theorem nodup_addKey {ovs : List String} (k : String) (hnd : ovs.Nodup) :
    (addKey ovs k).Nodup := by
  unfold addKey
  by_cases h : k ∈ ovs
  · rwa [if_pos h]
  · rw [if_neg h]
    simp [List.nodup_append, hnd, h]

theorem nodup_addOverlays_noFail {hs : List Highlight} {ovs : List String}
    (hnd : ovs.Nodup) : (addOverlays noFail hs ovs).Nodup := by
  induction hs generalizing ovs with
  | nil => exact hnd
  | cons a t ih =>
    rw [addOverlays, if_neg (by simp [noFail])]
    exact ih (nodup_addKey _ hnd)

theorem addOverlays_append_fail (f : String → Bool) (pre : List Highlight) (h : Highlight)
    (rest : List Highlight) (ovs : List String) (hf : f h.cfiRange = true) :
    addOverlays f (pre ++ h :: rest) ovs = addOverlays f pre ovs := by
  induction pre generalizing ovs with
  | nil => simp [addOverlays, hf]
  | cons a t ih =>
    rw [List.cons_append, addOverlays, addOverlays]
    by_cases ha : f a.cfiRange
    · rw [if_pos ha, if_pos ha]
    · rw [if_neg ha, if_neg ha]
      exact ih _

theorem reconcileVisual_noFail_of_sub {hs : List Highlight} {ovs : List String}
    (hsub : ∀ k ∈ ovs, k ∈ hs.map Highlight.cfiRange) :
    reconcileVisual noFail noFail hs ovs = addOverlays noFail hs [] := by
  rw [reconcileVisual, clearOverlays_eq_nil hsub]

/-!
## Settings mutations and the post-change reconciliation effect
(`Reader.tsx` 488–496 and the settings `useEffect` at 239–269)
-/

/-- A settings mutation issued by the toolbar: the `A-`/`A+` font-size buttons
or one of the three theme buttons. -/
inductive SettingsMutation where
  | fontDec
  | fontInc
  | themeSet (t : Theme)
deriving DecidableEq, Repr

/-- Apply a toolbar settings mutation. -/
def applyMutation : SettingsMutation → ReaderSettings → ReaderSettings
  | SettingsMutation.fontDec, s => decFontSize s
  | SettingsMutation.fontInc, s => incFontSize s
  | SettingsMutation.themeSet t, s => { s with theme := t }

/-- The reader component state relevant to the settings-change effect: the
current settings, the highlight collection, and the engine overlay key set. -/
structure ReaderState where
  settings : ReaderSettings
  highlights : List Highlight
  overlays : List String
deriving DecidableEq, Repr

/-- The settings-change step: the mutation updates the settings, and the
settings `useEffect` re-applies the theme and then runs the clear-then-reapply
reconciliation over the unchanged highlight collection.  The effect body never
calls `setHighlights`. -/
def settingsChanged (m : SettingsMutation) (st : ReaderState) : ReaderState :=
  { settings := applyMutation m st.settings
    highlights := st.highlights
    overlays := reconcileVisual noFail noFail st.highlights st.overlays }

/-!
## Claim C1 — settings changes preserve the highlight collection
-/

/-- C1: for every settings mutation (font-size or theme change), the
post-change reconciliation leaves the highlight collection unchanged as a list
(hence every highlight's `cfiRange`, `color`, `text` and `created` fields, and
the membership and order of the collection, are unchanged), while each
highlight's visual overlay is removed by the clear phase and present again
after the re-add phase. -/
theorem claim_C1 (m : SettingsMutation) (st : ReaderState) :
    (settingsChanged m st).highlights = st.highlights ∧
    ∀ h ∈ st.highlights,
      h.cfiRange ∉ clearOverlays noFail st.highlights st.overlays ∧
      h.cfiRange ∈ (settingsChanged m st).overlays := by
  refine ⟨rfl, ?_⟩
  intro h hmem
  refine ⟨not_mem_clearOverlays noFail st.highlights st.overlays hmem rfl, ?_⟩
  show h.cfiRange ∈ reconcileVisual noFail noFail st.highlights st.overlays
  rw [reconcileVisual]
  exact mem_addOverlays_noFail.mpr (Or.inr ⟨h, hmem, rfl⟩)

/-- C1 witness: a theme change on a concrete state with one highlight. -/
theorem claim_C1_witness :
    (settingsChanged (SettingsMutation.themeSet Theme.night)
        ⟨⟨Theme.light, 100, FontFamily.serif⟩, [⟨"r1", "#ffff00", some "hello", 5⟩], ["r1"]⟩).highlights
      = [⟨"r1", "#ffff00", some "hello", 5⟩] ∧
    "r1" ∉ clearOverlays noFail [⟨"r1", "#ffff00", some "hello", 5⟩] ["r1"] ∧
    "r1" ∈ (settingsChanged (SettingsMutation.themeSet Theme.night)
        ⟨⟨Theme.light, 100, FontFamily.serif⟩, [⟨"r1", "#ffff00", some "hello", 5⟩], ["r1"]⟩).overlays := by
  have h := claim_C1 (SettingsMutation.themeSet Theme.night)
    ⟨⟨Theme.light, 100, FontFamily.serif⟩, [⟨"r1", "#ffff00", some "hello", 5⟩], ["r1"]⟩
  exact ⟨h.1, (h.2 ⟨"r1", "#ffff00", some "hello", 5⟩ (by simp)).1,
    (h.2 ⟨"r1", "#ffff00", some "hello", 5⟩ (by simp)).2⟩

/-!
## Claim C2 — idempotence of the clear-then-reapply reconciliation
-/

/-- C2: starting from any overlay key set whose keys all belong to the
highlight collection (the configuration the session maintains), running the
clear-then-reapply reconciliation twice yields exactly the same overlay set as
running it once; the result carries exactly one overlay per highlight, no
duplicate overlays, and no overlay outside the collection (no orphans). -/
theorem claim_C2 (hs : List Highlight) (ovs : List String)
    (hsub : ∀ k ∈ ovs, k ∈ hs.map Highlight.cfiRange) :
    reconcileVisual noFail noFail hs (reconcileVisual noFail noFail hs ovs)
      = reconcileVisual noFail noFail hs ovs ∧
    (∀ h ∈ hs, (reconcileVisual noFail noFail hs ovs).count h.cfiRange = 1) ∧
    (reconcileVisual noFail noFail hs ovs).Nodup ∧
    ∀ k ∈ reconcileVisual noFail noFail hs ovs, k ∈ hs.map Highlight.cfiRange := by
  have hkeys : ∀ k ∈ reconcileVisual noFail noFail hs ovs, k ∈ hs.map Highlight.cfiRange := by
    intro k hk
    rw [reconcileVisual_noFail_of_sub hsub] at hk
    rcases mem_addOverlays_noFail.mp hk with hk' | ⟨h, hmem, rfl⟩
    · simp at hk'
    · exact List.mem_map.mpr ⟨h, hmem, rfl⟩
  have hnd : (reconcileVisual noFail noFail hs ovs).Nodup := by
    rw [reconcileVisual_noFail_of_sub hsub]
    exact nodup_addOverlays_noFail List.nodup_nil
  refine ⟨?_, ?_, hnd, hkeys⟩
  · rw [reconcileVisual_noFail_of_sub hkeys, reconcileVisual_noFail_of_sub hsub]
  · intro h hmem
    have hk : h.cfiRange ∈ reconcileVisual noFail noFail hs ovs := by
      rw [reconcileVisual_noFail_of_sub hsub]
      exact mem_addOverlays_noFail.mpr (Or.inr ⟨h, hmem, rfl⟩)
    exact List.count_eq_one_of_mem hnd hk

/-- C2 witness: a concrete two-highlight collection with its overlay set. -/
theorem claim_C2_witness :
    (reconcileVisual noFail noFail
        [⟨"a", "#ffff00", some "x", 0⟩, ⟨"b", "#ffff00", some "y", 1⟩] ["a", "b"]).Nodup :=
  (claim_C2 [⟨"a", "#ffff00", some "x", 0⟩, ⟨"b", "#ffff00", some "y", 1⟩] ["a", "b"]
    (by decide)).2.2.1

/-!
## Claim C3 — failure isolation during reconciliation

The claim holds for the clear phase: each removal sits inside a `try`/`catch`
(`Reader.tsx` 250–254), so one throwing removal cannot stop the removals of
the remaining highlights.  It fails for the re-apply phase: the re-add
`forEach` (`Reader.tsx` 258–264) has no `try`/`catch`, so one throwing add
aborts every remaining re-application.
-/

/-- C3 counterexample: with two highlights `"a"` and `"b"` and an engine whose
add throws on `"a"`, the re-application of the remaining highlight `"b"` never
happens — its overlay is absent from the reconciliation result even though its
own add would have succeeded, contradicting the claim that a failed individual
re-application does not abort re-application for the remaining highlights. -/
theorem claim_C3_counterexample :
    "b" ∉ reconcileVisual noFail (fun k => k == "a")
        [⟨"a", "#ffff00", some "x", 0⟩, ⟨"b", "#ffff00", some "y", 1⟩] [] := by
  decide

/-- C3 amended: a throwing removal is swallowed and does not stop removal for
the remaining highlights (every highlight whose own removal does not throw has
its overlay removed by the clear phase, whatever the oracle does elsewhere);
but a throwing individual re-application aborts re-application for all
remaining highlights — the re-apply loop stops at the first failing add, so
everything after it in the collection is skipped. -/
theorem claim_C3_amended (g f : String → Bool) (ovs : List String) :
    (∀ (hs : List Highlight), ∀ h ∈ hs, g h.cfiRange = false →
      h.cfiRange ∉ clearOverlays g hs ovs) ∧
    (∀ (pre rest : List Highlight) (h : Highlight), f h.cfiRange = true →
      addOverlays f (pre ++ h :: rest) ovs = addOverlays f pre ovs) := by
  constructor
  · intro hs h hmem hok
    exact not_mem_clearOverlays g hs ovs hmem hok
  · intro pre rest h hf
    exact addOverlays_append_fail f pre h rest ovs hf

/-- C3 amended witness: a concrete oracle failing on `"a"` only — the removal
of `"b"` still happens, and an add failing on `"a"` stops the loop there. -/
theorem claim_C3_amended_witness :
    "b" ∉ clearOverlays (fun k => k == "a")
        [⟨"a", "#ffff00", some "x", 0⟩, ⟨"b", "#ffff00", some "y", 1⟩] ["a", "b"] ∧
    addOverlays (fun k => k == "a")
        ([] ++ ⟨"a", "#ffff00", some "x", 0⟩ :: [⟨"b", "#ffff00", some "y", 1⟩]) []
      = addOverlays (fun k => k == "a") [] [] :=
  ⟨(claim_C3_amended (fun k => k == "a") (fun k => k == "a") ["a", "b"]).1
      [⟨"a", "#ffff00", some "x", 0⟩, ⟨"b", "#ffff00", some "y", 1⟩]
      ⟨"b", "#ffff00", some "y", 1⟩ (by decide) (by decide),
    (claim_C3_amended (fun k => k == "a") (fun k => k == "a") []).2
      [] [⟨"b", "#ffff00", some "y", 1⟩] ⟨"a", "#ffff00", some "x", 0⟩ (by decide)⟩

/-!
## Relocation progress (`Reader.tsx` 281–292, `updateLocationState`)

`percentageFromCfi` is an engine call: given the built location index, it maps
the canonical start identifier to its fractional position, a JS number in
`[0, 1]`; it is embedded as a rational argument.  The component then computes
`Math.floor(percentage * 100)`, shows it, and persists it with the cfi.
-/

/-- The component state set by `updateLocationState`: `currentCfi` and the
integer `progress`. -/
structure LocationView where
  currentCfi : String
  progress : Int
deriving DecidableEq, Repr

/-- `Math.floor(percentage * 100)` from `Reader.tsx` line 288. -/
def percentageNum (f : ℚ) : Int := ⌊f * 100⌋

/-- `updateLocationState`: record the start cfi and the floored percentage in
component state and persist both via `updateBookProgress`. -/
def updateLocationState (f : ℚ) (startCfi bookId : String) (store : Store) :
    LocationView × Store :=
  (⟨startCfi, percentageNum f⟩, updateBookProgress store bookId startCfi (percentageNum f))

theorem findBook_id_eq {st : Store} {i : String} {b : Book}
    (hb : findBook st i = some b) : b.id = i := by
  have := List.find?_some hb
  simpa using this

/-!
## Claim C4 — progress is `floor(f * 100)`, an integer in `[0, 100]`, and is stored
-/

/-- C4: for a relocation whose canonical start identifier resolves to the
fractional position `f ∈ [0, 1]` in the built location index, the computed
progress is exactly `⌊f * 100⌋`, lies in `[0, 100]`, and is what the store
records as the book's progress (together with the start cfi). -/
theorem claim_C4 (f : ℚ) (startCfi bookId : String) (store : Store) (b : Book)
    (h0 : 0 ≤ f) (h1 : f ≤ 1) (hb : findBook store bookId = some b) :
    (updateLocationState f startCfi bookId store).1.progress = ⌊f * 100⌋ ∧
    0 ≤ (updateLocationState f startCfi bookId store).1.progress ∧
    (updateLocationState f startCfi bookId store).1.progress ≤ 100 ∧
    findBook (updateLocationState f startCfi bookId store).2 bookId
      = some { b with lastLocationCfi := startCfi, progress := ⌊f * 100⌋ } := by
  have hlow : (0 : Int) ≤ ⌊f * 100⌋ := by
    apply Int.floor_nonneg.mpr
    positivity
  have hhigh : ⌊f * 100⌋ ≤ 100 := by
    have : f * 100 ≤ (100 : ℚ) := by nlinarith
    calc ⌊f * 100⌋ ≤ ⌊(100 : ℚ)⌋ := Int.floor_le_floor this
    _ = 100 := by norm_num
  refine ⟨rfl, hlow, hhigh, ?_⟩
  show findBook (updateBookProgress store bookId startCfi (percentageNum f)) bookId
    = some { b with lastLocationCfi := startCfi, progress := ⌊f * 100⌋ }
  unfold updateBookProgress
  rw [hb]
  have hid := findBook_id_eq hb
  rw [← hid]
  exact findBook_putBook_self store _

/-- C4 witness: a halfway position in a one-book store. -/
theorem claim_C4_witness :
    (updateLocationState (1/2) "epubcfi(/6/8!/4/2)" "b1"
        [⟨"b1", "t", "a", none, [], 0, "", 0, none, none⟩]).1.progress = ⌊(1/2 : ℚ) * 100⌋ ∧
    0 ≤ (updateLocationState (1/2) "epubcfi(/6/8!/4/2)" "b1"
        [⟨"b1", "t", "a", none, [], 0, "", 0, none, none⟩]).1.progress ∧
    (updateLocationState (1/2) "epubcfi(/6/8!/4/2)" "b1"
        [⟨"b1", "t", "a", none, [], 0, "", 0, none, none⟩]).1.progress ≤ 100 ∧
    findBook (updateLocationState (1/2) "epubcfi(/6/8!/4/2)" "b1"
        [⟨"b1", "t", "a", none, [], 0, "", 0, none, none⟩]).2 "b1"
      = some ⟨"b1", "t", "a", none, [], 0, "epubcfi(/6/8!/4/2)", ⌊(1/2 : ℚ) * 100⌋, none, none⟩ :=
  claim_C4 (1/2) "epubcfi(/6/8!/4/2)" "b1"
    [⟨"b1", "t", "a", none, [], 0, "", 0, none, none⟩]
    ⟨"b1", "t", "a", none, [], 0, "", 0, none, none⟩
    (by norm_num) (by norm_num) (by decide)

/-!
## Selection-to-highlight creation (`Reader.tsx` 153–196, mouseup handler)

The handler returns early unless highlight mode is on; unless a selection
object exists, is non-collapsed and has at least one range; and unless the
selected text is non-empty after trimming.  It then asks the engine for the
canonical range identifier of the selection; if that string is truthy it adds
the visual overlay, builds the highlight (`color '#ffff00'`, trimmed text,
`Date.now()` timestamp), appends it to the component collection, and persists
it with `addBookHighlight`.
-/

/-- The DOM selection as read by the handler: `isCollapsed`, `rangeCount`, and
the text returned by `selection.toString()`. -/
structure DomSelection where
  isCollapsed : Bool
  rangeCount : Nat
  raw : String
deriving DecidableEq, Repr

/-- The session state the mouseup handler touches: the component highlight
collection, the engine overlay key set, and the persistent store. -/
structure SessionState where
  highlights : List Highlight
  overlays : List String
  store : Store
deriving DecidableEq, Repr

/-- The handler's outcome: the canonical range identifier it computed, if it
got that far, and the resulting session state. -/
structure MouseupResult where
  producedCfi : Option String
  state : SessionState
deriving DecidableEq, Repr

/-- Leading whitespace characters stripped from a character list. -/
def dropLeadingWs : List Char → List Char
  | [] => []
  | c :: cs => if c.isWhitespace then dropLeadingWs cs else c :: cs

/-- JS `String.prototype.trim`: strip leading and trailing whitespace. -/
def jsTrim (s : String) : String :=
  String.mk ((dropLeadingWs (dropLeadingWs s.data).reverse).reverse)

/-- The mouseup handler.  `cfiOfRange` is the string the engine's CFI
constructor returns for this selection's range. -/
def mouseupHandler (highlightMode : Bool) (sel : Option DomSelection) (cfiOfRange : String)
    (now : Nat) (bookId : String) (st : SessionState) : MouseupResult :=
  if !highlightMode then ⟨none, st⟩
  else
    match sel with
    | none => ⟨none, st⟩
    | some s =>
      if s.isCollapsed || s.rangeCount == 0 then ⟨none, st⟩
      else
        let text := jsTrim s.raw
        if text = "" then ⟨none, st⟩
        else if cfiOfRange = "" then ⟨some cfiOfRange, st⟩
        else
          let newHighlight : Highlight := ⟨cfiOfRange, "#ffff00", some text, now⟩
          ⟨some cfiOfRange,
            ⟨st.highlights ++ [newHighlight],
             addKey st.overlays cfiOfRange,
             addBookHighlight st.store bookId newHighlight⟩⟩

/-!
## Claim C5 — invalid selections are ignored; valid ones create exactly one highlight
-/

/-- C5: with highlight mode off, or with an absent, collapsed, rangeless, or
whitespace-only selection, the handler produces no canonical range identifier
and changes nothing; with highlight mode on and a valid non-collapsed
selection with non-whitespace text, for which the engine yields a non-empty
identifier, the handler produces that identifier and creates exactly one
highlight: appended to the component collection, present as a visual overlay,
and appended durably to the stored book's collection. -/
theorem claim_C5 (highlightMode : Bool) (sel : Option DomSelection) (cfiOfRange : String)
    (now : Nat) (bookId : String) (st : SessionState) :
    ((highlightMode = false ∨ sel = none ∨
        (∃ s, sel = some s ∧
          (s.isCollapsed = true ∨ s.rangeCount = 0 ∨ jsTrim s.raw = ""))) →
      mouseupHandler highlightMode sel cfiOfRange now bookId st = ⟨none, st⟩) ∧
    (∀ s, sel = some s → highlightMode = true → s.isCollapsed = false →
      s.rangeCount ≠ 0 → jsTrim s.raw ≠ "" → cfiOfRange ≠ "" →
      (mouseupHandler highlightMode sel cfiOfRange now bookId st).producedCfi
          = some cfiOfRange ∧
      (mouseupHandler highlightMode sel cfiOfRange now bookId st).state.highlights
          = st.highlights ++ [⟨cfiOfRange, "#ffff00", some (jsTrim s.raw), now⟩] ∧
      cfiOfRange ∈ (mouseupHandler highlightMode sel cfiOfRange now bookId st).state.overlays ∧
      ∀ b, findBook st.store bookId = some b →
        findBook (mouseupHandler highlightMode sel cfiOfRange now bookId st).state.store bookId
          = some { b with highlights := some (b.highlights.getD [] ++ [⟨cfiOfRange, "#ffff00", some (jsTrim s.raw), now⟩]) }) := by
  constructor
  · rintro (hm | hnone | ⟨s, rfl, hcase⟩)
    · simp [mouseupHandler, hm]
    · subst hnone
      cases highlightMode <;> simp [mouseupHandler]
    · rcases hcase with hc | hr | ht
      · cases highlightMode <;> simp [mouseupHandler, hc]
      · cases highlightMode <;> simp [mouseupHandler, hr]
      · cases highlightMode <;> simp [mouseupHandler, ht]
  · rintro s rfl hm hc hr ht hcfi
    have hr' : (s.rangeCount == 0) = false := by simpa using hr
    have hres : mouseupHandler highlightMode (some s) cfiOfRange now bookId st
        = ⟨some cfiOfRange,
            ⟨st.highlights ++ [⟨cfiOfRange, "#ffff00", some (jsTrim s.raw), now⟩],
             addKey st.overlays cfiOfRange,
             addBookHighlight st.store bookId
               ⟨cfiOfRange, "#ffff00", some (jsTrim s.raw), now⟩⟩⟩ := by
      simp [mouseupHandler, hm, hc, hr', ht, hcfi]
    rw [hres]
    refine ⟨rfl, rfl, mem_addKey.mpr (Or.inr rfl), ?_⟩
    intro b hb
    show findBook (addBookHighlight st.store bookId
        ⟨cfiOfRange, "#ffff00", some (jsTrim s.raw), now⟩) bookId = _
    unfold addBookHighlight
    rw [hb]
    have hid := findBook_id_eq hb
    rw [← hid]
    exact findBook_putBook_self st.store _

/-- C5 witness: a valid selection in highlight mode creates one highlight, and
a collapsed selection in the same state creates none. -/
theorem claim_C5_witness :
    (mouseupHandler true (some ⟨false, 1, " Hello "⟩) "epubcfi(/6/4!/4/2,/1:0,/1:5)" 42 "b1"
        ⟨[], [], [⟨"b1", "t", "a", none, [], 0, "", 0, none, none⟩]⟩).state.highlights
      = [] ++ [⟨"epubcfi(/6/4!/4/2,/1:0,/1:5)", "#ffff00", some (jsTrim " Hello "), 42⟩] ∧
    mouseupHandler true (some ⟨true, 1, "Hello"⟩) "epubcfi(/6/4!/4/2,/1:0,/1:5)" 42 "b1"
        ⟨[], [], [⟨"b1", "t", "a", none, [], 0, "", 0, none, none⟩]⟩
      = ⟨none, ⟨[], [], [⟨"b1", "t", "a", none, [], 0, "", 0, none, none⟩]⟩⟩ :=
  ⟨((claim_C5 true (some ⟨false, 1, " Hello "⟩) "epubcfi(/6/4!/4/2,/1:0,/1:5)" 42 "b1"
      ⟨[], [], [⟨"b1", "t", "a", none, [], 0, "", 0, none, none⟩]⟩).2
      ⟨false, 1, " Hello "⟩ rfl rfl rfl (by decide) (by decide) (by decide)).2.1,
   (claim_C5 true (some ⟨true, 1, "Hello"⟩) "epubcfi(/6/4!/4/2,/1:0,/1:5)" 42 "b1"
      ⟨[], [], [⟨"b1", "t", "a", none, [], 0, "", 0, none, none⟩]⟩).1
      (Or.inr (Or.inr ⟨⟨true, 1, "Hello"⟩, rfl, Or.inl rfl⟩))⟩

/-!
## Claim C6 — highlight removal semantics (`db.ts` 70–77, `Reader.tsx` 311–316)
-/

theorem filter_ne_eq_eraseP (cfi : String) (hs : List Highlight)
    (hnd : (hs.map Highlight.cfiRange).Nodup) :
    hs.filter (fun h => h.cfiRange != cfi) = hs.eraseP (fun h => h.cfiRange == cfi) := by
  induction hs with
  | nil => rfl
  | cons a t ih =>
    rw [List.map_cons, List.nodup_cons] at hnd
    by_cases ha : a.cfiRange = cfi
    · subst ha
      simp only [List.filter_cons, List.eraseP_cons, bne_self_eq_false, Bool.false_eq_true,
        if_false, beq_self_eq_true, cond_true]
      rw [List.filter_eq_self]
      intro h hmem
      have hne : h.cfiRange ≠ a.cfiRange := by
        intro he
        exact hnd.1 (List.mem_map.mpr ⟨h, hmem, he⟩)
      simpa using hne
    · have hbeq : (a.cfiRange == cfi) = false := by simpa using ha
      have hbne : (a.cfiRange != cfi) = true := by simpa using ha
      simp only [List.filter_cons, List.eraseP_cons, hbne, hbeq, if_true, cond_false]
      rw [ih hnd.2]

/-- C6: for a stored book whose highlight collection has pairwise-distinct
canonical identifiers (the spec's uniqueness invariant), `removeBookHighlight`
stores back exactly the collection with the first (only) entry whose
`cfiRange` equals the given identifier erased; and when no entry matches, the
whole store is left unchanged — a no-op, with the total function throwing
nothing. -/
theorem claim_C6 (store : Store) (bookId cfiRange : String) (b : Book) (hs : List Highlight)
    (hnd : (store.map Book.id).Nodup) (hb : findBook store bookId = some b)
    (hhs : b.highlights = some hs) (hcfi : (hs.map Highlight.cfiRange).Nodup) :
    removeBookHighlight store bookId cfiRange
      = putBook store { b with highlights := some (hs.eraseP (fun h => h.cfiRange == cfiRange)) } ∧
    ((∀ h ∈ hs, h.cfiRange ≠ cfiRange) → removeBookHighlight store bookId cfiRange = store) := by
  constructor
  · simp only [removeBookHighlight, hb, hhs]
    rw [filter_ne_eq_eraseP cfiRange hs hcfi]
  · intro hnone
    simp only [removeBookHighlight, hb, hhs]
    have hfix : hs.filter (fun h => h.cfiRange != cfiRange) = hs := by
      rw [List.filter_eq_self]
      intro h hmem
      simpa using hnone h hmem
    rw [hfix]
    have hself : ({ b with highlights := some hs } : Book) = b := by
      rw [← hhs]
    rw [hself]
    exact putBook_eq_self store b bookId hnd hb

/-- C6 witness: removing a present identifier erases exactly that entry, and
removing an absent identifier leaves the store unchanged. -/
theorem claim_C6_witness :
    removeBookHighlight
        [⟨"b1", "t", "a", none, [], 0, "", 0, none,
          some [⟨"r1", "#ffff00", some "x", 0⟩, ⟨"r2", "#ffff00", some "y", 1⟩]⟩] "b1" "zzz"
      = [⟨"b1", "t", "a", none, [], 0, "", 0, none,
          some [⟨"r1", "#ffff00", some "x", 0⟩, ⟨"r2", "#ffff00", some "y", 1⟩]⟩] :=
  (claim_C6
    [⟨"b1", "t", "a", none, [], 0, "", 0, none,
      some [⟨"r1", "#ffff00", some "x", 0⟩, ⟨"r2", "#ffff00", some "y", 1⟩]⟩]
    "b1" "zzz"
    ⟨"b1", "t", "a", none, [], 0, "", 0, none,
      some [⟨"r1", "#ffff00", some "x", 0⟩, ⟨"r2", "#ffff00", some "y", 1⟩]⟩
    [⟨"r1", "#ffff00", some "x", 0⟩, ⟨"r2", "#ffff00", some "y", 1⟩]
    (by decide) (by decide) rfl (by decide)).2 (by decide)

/-!
## Session initialization (`Reader.tsx` 116–142) and claim C7

`rendition.display(startLocation)` is requested with
`startLocation = book.lastLocationCfi || undefined` (the empty string is
falsy, so an empty saved location falls back to the document start), and the
`.then` callback — run only once the display promise settles — calls
`setIsReady(true)`, then `applyTheme`, then starts
`bookInstance.locations.generate(1000)`.  The initialization is embedded as
the ordered trace of these events.
-/

/-- The observable initialization events. -/
inductive InitEvent where
  | displayRequested (target : Option String)
  | displaySettled
  | readyMarked
  | themeApplied
  | indexBuildStarted
deriving DecidableEq, Repr

/-- `book.lastLocationCfi || undefined`: the empty string is falsy. -/
def jsOrUndefined (s : String) : Option String := if s = "" then none else some s

/-- `rendition.display(target).then(callback)`: the display request, its
settling, and only then the callback's events. -/
def displayThen (target : Option String) (callback : List InitEvent) : List InitEvent :=
  InitEvent.displayRequested target :: InitEvent.displaySettled :: callback

/-- The body of the `.then` callback at `Reader.tsx` 133–142, in program
order: mark ready, apply the current theme, start location-index generation. -/
def displaySettledCallback : List InitEvent :=
  [InitEvent.readyMarked, InitEvent.themeApplied, InitEvent.indexBuildStarted]

/-- The initialization event trace. -/
def initTrace (lastLocationCfi : String) : List InitEvent :=
  displayThen (jsOrUndefined lastLocationCfi) displaySettledCallback

def isDisplaySettled : InitEvent → Bool
  | InitEvent.displaySettled => true
  | _ => false

def isReadyMarked : InitEvent → Bool
  | InitEvent.readyMarked => true
  | _ => false

def isThemeApplied : InitEvent → Bool
  | InitEvent.themeApplied => true
  | _ => false

def isIndexBuildStarted : InitEvent → Bool
  | InitEvent.indexBuildStarted => true
  | _ => false

/-- C7: initialization first requests display at the saved location when it is
non-empty and at the document start (no target) otherwise; each of
display-settling, ready-marking, theme application and index-build start
occurs exactly once in the trace; and their first occurrences are ordered
settle, then ready, then theme, then index build — so none of the three
happens before the initial display settles. -/
theorem claim_C7 (loc : String) :
    (initTrace loc).head?
        = some (InitEvent.displayRequested (if loc = "" then none else some loc)) ∧
    (initTrace loc).countP isDisplaySettled = 1 ∧
    (initTrace loc).countP isReadyMarked = 1 ∧
    (initTrace loc).countP isThemeApplied = 1 ∧
    (initTrace loc).countP isIndexBuildStarted = 1 ∧
    (initTrace loc).findIdx isDisplaySettled < (initTrace loc).findIdx isReadyMarked ∧
    (initTrace loc).findIdx isReadyMarked < (initTrace loc).findIdx isThemeApplied ∧
    (initTrace loc).findIdx isThemeApplied < (initTrace loc).findIdx isIndexBuildStarted := by
  refine ⟨?_, ?_, ?_, ?_, ?_, ?_, ?_, ?_⟩ <;>
    simp [initTrace, displayThen, displaySettledCallback, jsOrUndefined,
      List.countP_cons, List.findIdx_cons, isDisplaySettled, isReadyMarked,
      isThemeApplied, isIndexBuildStarted]

/-!
## Mark-click suppression (`Reader.tsx` 169–172 and 203–220) and claim C8

Creating a highlight sets `justCreatedHighlightRef.current = true` and
schedules `setTimeout(() => { ... = false }, 300)`.  The ref over time is the
last of these timed writes at or before the observation instant (initially
`false`).  The `markClicked` handler returns immediately — leaving the popup
state untouched — whenever the ref is set; otherwise it shows the
delete-confirmation popup near the container's top center.
-/

/-- The delete-confirmation popup state (`highlightPopup`). -/
structure HighlightPopup where
  cfiRange : String
  x : ℚ
  y : ℚ
deriving DecidableEq, Repr

/-- A timed write to the suppression ref. -/
structure TimedWrite where
  t : Nat
  v : Bool
deriving DecidableEq, Repr

/-- The ref's value at instant `t`: the last write at or before `t` wins;
the ref starts out `false`. -/
def flagAt (ws : List TimedWrite) (t : Nat) : Bool :=
  ws.foldl (fun acc w => if w.t ≤ t then w.v else acc) false

/-- The two writes a highlight creation at instant `tc` schedules: the ref is
set at once and reset by the 300 ms timer. -/
def creationWrites (tc : Nat) : List TimedWrite :=
  [⟨tc, true⟩, ⟨tc + 300, false⟩]

/-- The `markClicked` handler: when the suppression ref is set, return with
the popup state untouched; otherwise, when the container rect is available,
show the popup at the container's horizontal center, `y = 60`.  The returned
`true` prevents the controls toggle. -/
def markClickedHandler (justCreated : Bool) (popup : Option HighlightPopup)
    (cfiRange : String) (containerWidth : Option ℚ) : Option HighlightPopup × Bool :=
  if justCreated then (popup, true)
  else
    match containerWidth with
    | none => (popup, true)
    | some w => (some ⟨cfiRange, w / 2, 60⟩, true)

/-- C8: at every instant within 300 ms of a highlight creation the suppression
ref reads `true`, and the `markClicked` handler run at such an instant leaves
the popup state exactly as it was — the delete-confirmation popup is never
shown from inside the window. -/
theorem claim_C8 (tc t : Nat) (h1 : tc ≤ t) (h2 : t < tc + 300)
    (popup : Option HighlightPopup) (cfiRange : String) (containerWidth : Option ℚ) :
    flagAt (creationWrites tc) t = true ∧
    markClickedHandler (flagAt (creationWrites tc) t) popup cfiRange containerWidth
      = (popup, true) := by
  have hflag : flagAt (creationWrites tc) t = true := by
    simp only [flagAt, creationWrites, List.foldl_cons, List.foldl_nil]
    rw [if_pos h1, if_neg (by omega)]
  refine ⟨hflag, ?_⟩
  rw [hflag]
  simp [markClickedHandler]

/-- C8 witness: a click 200 ms after creation, with a popup-free state and an
available container rect, shows no popup. -/
theorem claim_C8_witness :
    flagAt (creationWrites 1000) 1200 = true ∧
    markClickedHandler (flagAt (creationWrites 1000) 1200) none "r1" (some 800)
      = (none, true) :=
  claim_C8 1000 1200 (by decide) (by decide) none "r1" (some 800)

end ReaderWeb
